import Mathlib

/-!
Verification of `knockout.py`, a command-line wrapper around an external
constraint-based metabolic modeling library (cobra).  The repository performs
no numeric computation of its own: it loads a model file by extension
dispatch, extracts an id→name gene table, post-processes the external
single-gene-deletion result and writes it as a tab-separated file.

Python strings are embedded as `List Char` (`PyStr`) so that the string
manipulations of the source (`split`, `lower`, `strip`) become executable
list functions with decidable equality.  External collaborators (the three
cobra parsers, the deletion routine, the filesystem and the shell) are
modeled as parameters or as explicit small-step semantics, following their
documented behavior.
-/

set_option maxRecDepth 8000

abbrev PyStr := List Char

/-- Python `s.split(sep)` for a one-character separator `sep`:
keeps empty fields, never returns an empty list (`"".split(sep) == [""]`). -/
def pySplit (sep : Char) : PyStr → List PyStr
  | [] => [[]]
  | c :: rest =>
    if c = sep then [] :: pySplit sep rest
    else
      match pySplit sep rest with
      | [] => [[c]]
      | h :: t => (c :: h) :: t

theorem pySplit_ne_nil (sep : Char) (s : PyStr) : pySplit sep s ≠ [] := by
  induction s with
  | nil => simp [pySplit]
  | cons c rest ih =>
    by_cases h : c = sep
    · simp [pySplit, h]
    · simp only [pySplit, if_neg h]
      cases hr : pySplit sep rest with
      | nil => simp
      | cons a l => simp

theorem mem_pySplit_not_sep (sep : Char) (s : PyStr) :
    ∀ p ∈ pySplit sep s, sep ∉ p := by
  induction s with
  | nil => intro p hp; simp [pySplit] at hp; simp [hp]
  | cons c rest ih =>
    intro p hp
    by_cases h : c = sep
    · simp only [pySplit, if_pos h, List.mem_cons] at hp
      rcases hp with rfl | hp
      · simp
      · exact ih p hp
    · simp only [pySplit, if_neg h] at hp
      cases hr : pySplit sep rest with
      | nil => exact absurd hr (pySplit_ne_nil sep rest)
      | cons a l =>
        rw [hr] at hp
        simp only [List.mem_cons] at hp
        rcases hp with rfl | hp
        · intro hmem
          rcases List.mem_cons.mp hmem with rfl | hmem
          · exact h rfl
          · exact ih a (by rw [hr]; exact List.mem_cons_self a l) hmem
        · exact ih p (by rw [hr]; exact List.mem_cons_of_mem a hp)

/-- The first field of a split is the longest separator-free prefix
(Python `s.split(sep)[0]`). -/
theorem headD_pySplit (sep : Char) (s : PyStr) :
    (pySplit sep s).headD [] = s.takeWhile (· ≠ sep) := by
  induction s with
  | nil => simp [pySplit]
  | cons c rest ih =>
    by_cases h : c = sep
    · simp [pySplit, h, List.takeWhile]
    · simp only [pySplit, if_neg h]
      cases hr : pySplit sep rest with
      | nil => exact absurd hr (pySplit_ne_nil sep rest)
      | cons a l =>
        rw [hr] at ih
        simp only [List.headD] at ih
        rw [ih]
        simp [List.takeWhile_cons, h, ne_eq, decide_not]

theorem length_pySplit (sep : Char) (s : PyStr) :
    (pySplit sep s).length = s.count sep + 1 := by
  induction s with
  | nil => simp [pySplit]
  | cons c rest ih =>
    by_cases h : c = sep
    · simp [pySplit, h, List.count_cons, ih]
    · simp only [pySplit, if_neg h]
      cases hr : pySplit sep rest with
      | nil => exact absurd hr (pySplit_ne_nil sep rest)
      | cons a l =>
        rw [hr] at ih
        rw [List.count_cons]
        have hne : (c == sep) = false := by simp [h]
        simp [hne] at ih ⊢
        omega

theorem count_eq_zero_of_pySplit_singleton (sep : Char) (s : PyStr) (p : PyStr)
    (h : pySplit sep s = [p]) : s.count sep = 0 := by
  have := length_pySplit sep s
  rw [h] at this
  simpa using this.symm

theorem takeWhile_append_of_forall {α : Type} (p : α → Bool) (xs ys : List α)
    (h : ∀ a ∈ xs, p a = true) :
    (xs ++ ys).takeWhile p = xs ++ ys.takeWhile p := by
  induction xs with
  | nil => simp
  | cons a l ih =>
    have ha : p a = true := h a (List.mem_cons_self a l)
    simp only [List.cons_append, List.takeWhile_cons, ha, if_true]
    rw [ih fun b hb => h b (List.mem_cons_of_mem a hb)]

theorem takeWhile_append_of_exists {α : Type} (p : α → Bool) (xs ys : List α)
    (h : ∃ a ∈ xs, p a = false) :
    (xs ++ ys).takeWhile p = xs.takeWhile p := by
  induction xs with
  | nil => simp at h
  | cons a l ih =>
    by_cases ha : p a = true
    · simp only [List.cons_append, List.takeWhile_cons, ha, if_true]
      rcases h with ⟨b, hb, hpb⟩
      rcases List.mem_cons.mp hb with rfl | hb
      · rw [ha] at hpb; cases hpb
      · rw [ih ⟨b, hb, hpb⟩]
    · have ha' : p a = false := by
        cases hpa : p a
        · rfl
        · exact absurd hpa ha
      simp [List.takeWhile_cons, ha']

/-- The last field of a split is the longest separator-free suffix
(Python `s.split(sep)[-1]`). -/
theorem getLastD_pySplit (sep : Char) (s : PyStr) :
    (pySplit sep s).getLastD [] = (s.reverse.takeWhile (· ≠ sep)).reverse := by
  induction s with
  | nil => simp [pySplit]
  | cons c rest ih =>
    by_cases h : c = sep
    · subst h
      have hunfold : pySplit c (c :: rest) = [] :: pySplit c rest := by
        simp [pySplit]
      rw [hunfold]
      cases hr : pySplit c rest with
      | nil => exact absurd hr (pySplit_ne_nil c rest)
      | cons a l =>
        rw [hr] at ih
        rw [List.getLastD_cons]
        have hsuff : ((rest.reverse ++ [c]).takeWhile (fun x => decide (x ≠ c)))
            = rest.reverse.takeWhile (fun x => decide (x ≠ c)) := by
          by_cases hmem : c ∈ rest.reverse
          · exact takeWhile_append_of_exists _ _ _ ⟨c, hmem, by simp⟩
          · rw [takeWhile_append_of_forall _ _ _
              (fun b hb => by
                simp only [decide_eq_true_eq]
                intro hbc; exact hmem (hbc ▸ hb))]
            have h1 : (List.takeWhile (fun x => decide (x ≠ c)) [c]) = [] := by
              simp
            rw [h1, List.append_nil]
            exact (List.takeWhile_eq_self_iff.mpr
              (fun b hb => by
                simp only [decide_eq_true_eq]
                intro hbc; exact hmem (hbc ▸ hb))).symm
        simp only [List.reverse_cons]
        rw [hsuff, ← ih]
    · have hunfold : pySplit sep (c :: rest) =
          match pySplit sep rest with
          | [] => [[c]]
          | hh :: t => (c :: hh) :: t := by
        simp [pySplit, h]
      rw [hunfold]
      cases hr : pySplit sep rest with
      | nil => exact absurd hr (pySplit_ne_nil sep rest)
      | cons a l =>
        rw [hr] at ih
        cases l with
        | nil =>
          have hcount : rest.count sep = 0 :=
            count_eq_zero_of_pySplit_singleton sep rest a hr
          have hnot : sep ∉ rest := by
            intro hmem
            have := List.count_pos_iff.mpr hmem
            omega
          have hall : ∀ b ∈ rest.reverse ++ [c], (decide (b ≠ sep)) = true := by
            intro b hb
            simp only [decide_eq_true_eq]
            rcases List.mem_append.mp hb with hb | hb
            · intro hbc; exact hnot (hbc ▸ List.mem_reverse.mp hb)
            · simp only [List.mem_singleton] at hb
              subst hb; exact h
          have htake : (((c :: rest).reverse).takeWhile (fun x => decide (x ≠ sep)))
              = rest.reverse ++ [c] := by
            simp only [List.reverse_cons]
            exact List.takeWhile_eq_self_iff.mpr hall
          simp only [htake]
          have ha : a = rest := by
            have h2 := ih
            have hrest : ((rest.reverse).takeWhile (fun x => decide (x ≠ sep)))
                = rest.reverse :=
              List.takeWhile_eq_self_iff.mpr
                (fun b hb => by
                  simp only [decide_eq_true_eq]
                  intro hbc; exact hnot (hbc ▸ List.mem_reverse.mp hb))
            rw [hrest] at h2
            simpa using h2
          simp [ha]
        | cons a2 l2 =>
          have hpos : 0 < rest.count sep := by
            have := length_pySplit sep rest
            rw [hr] at this
            simp only [List.length_cons] at this
            omega
          have hmem : sep ∈ rest := List.count_pos_iff.mp hpos
          have hstep : (((c :: rest).reverse).takeWhile (fun x => decide (x ≠ sep)))
              = (rest.reverse).takeWhile (fun x => decide (x ≠ sep)) := by
            simp only [List.reverse_cons]
            exact takeWhile_append_of_exists _ _ _
              ⟨sep, List.mem_reverse.mpr hmem, by simp⟩
          simp only [hstep, ← ih]
          simp [List.getLastD_cons]

/-! ### Python dict embedding

`gene_info` is a Python `dict` built exclusively through
`dict.update({k: v})`; it is embedded as an insertion-ordered association
list where an update replaces the value of an existing key in place and
appends a fresh key at the end, matching CPython semantics. -/

abbrev PyDict := List (PyStr × PyStr)

def pyDictUpdate : PyDict → PyStr → PyStr → PyDict
  | [], k, v => [(k, v)]
  | (k', v') :: rest, k, v =>
    if k' = k then (k, v) :: rest else (k', v') :: pyDictUpdate rest k v

def pyDictGet : PyDict → PyStr → Option PyStr
  | [], _ => none
  | (k', v') :: rest, k => if k' = k then some v' else pyDictGet rest k

def pyDictKeys (d : PyDict) : List PyStr := d.map Prod.fst

/-! ### Data model

A cobra `Model` is opaque to this repository except for its gene
collection, each gene exposing `id` and `name`. -/

structure Gene where
  id : PyStr
  name : PyStr
deriving DecidableEq

structure Model where
  genes : List Gene
deriving DecidableEq

/-! ### `load_model_from_file`

The loader checks existence, lowercases the path, takes the last
`'.'`-separated component, and dispatches through a dict of parsers inside
a `try` block that maps `KeyError` to `FileNotFoundError` and `IOError` to
`IOError`.  The three external cobra parsers are parameters; a parser's
outcome is `Except PyExc μ`, where `PyExc` distinguishes the exception
classes the `try` block discriminates on. -/

inductive PyExc
  | keyError
  | ioError
  | otherExc
deriving DecidableEq

inductive ParserKind
  | sbml
  | json
  | mat
deriving DecidableEq

inductive LoadErr
  | fileNotFound (msg : PyStr)
  | ioError (msg : PyStr)
  | propagated
deriving DecidableEq

structure LoadOutcome (mu : Type) where
  calls : List ParserKind
  result : Except LoadErr mu

/-- `file.lower().split('.')[-1]` of `knockout.py:30`. -/
def file_ext (file : PyStr) : PyStr :=
  (pySplit '.' (file.map Char.toLower)).getLastD []

/-- The `try`/`except` of `knockout.py:40-45`: the parser has been reached,
so a `KeyError` raised inside it is also converted to
`FileNotFoundError(f"error {file_ext}")`, an `IOError` to
`IOError(f"error {file}")`, and anything else propagates. -/
def wrapParser {mu : Type} (file ext : PyStr) (k : ParserKind)
    (res : Except PyExc mu) : LoadOutcome mu :=
  { calls := [k],
    result :=
      match res with
      | .ok m => .ok m
      | .error .keyError => .error (.fileNotFound ("error ".data ++ ext))
      | .error .ioError => .error (.ioError ("error ".data ++ file))
      | .error .otherExc => .error .propagated }

/-- `load_model_from_file` of `knockout.py:14-47`, parameterized by the
filesystem-existence oracle and the three external cobra parsers.  The
`funcs_dict` lookup is the extension dispatch; a missed lookup raises
`KeyError`, which the `except` clause turns into
`FileNotFoundError(f"error {file_ext}")` without any parser running. -/
def load_model_from_file {mu : Type} (existsFn : PyStr → Bool)
    (read_sbml_model load_json_model load_matlab_model : PyStr → Except PyExc mu)
    (file : PyStr) : LoadOutcome mu :=
  if existsFn file then
    if file_ext file = "xml".data then
      wrapParser file (file_ext file) .sbml (read_sbml_model file)
    else if file_ext file = "json".data then
      wrapParser file (file_ext file) .json (load_json_model file)
    else if file_ext file = "mat".data then
      wrapParser file (file_ext file) .mat (load_matlab_model file)
    else
      { calls := []
        result := .error (.fileNotFound ("error ".data ++ file_ext file)) }
  else
    { calls := []
      result := .error (.fileNotFound ("Not Found ".data ++ file)) }

/-! ### The `Knockout` class -/

structure Knockout where
  model_file : PyStr
  outdir : PyStr
  method : PyStr
  gene_list : Option (List PyStr)
  model_obj : Option Model
  gene_info : PyDict
  out_name : PyStr
  out_res : PyStr
deriving DecidableEq

structure InitOutcome where
  state : Knockout
  shell_cmds : List PyStr
deriving DecidableEq

/-- `Knockout.__init__` (`knockout.py:51-90`), parameterized by the
filesystem-existence oracle.  `out_name` is
`model_file.split("/")[-1].split(".")[0]`; when `outdir` does not exist the
constructor runs the shell command `f"mkdir -p {self.outdir}"` through
`subprocess.check_call(..., shell=True)`, recorded here as the literal
command string handed to the shell. -/
def Knockout.init (existsFn : PyStr → Bool)
    (model_file outdir method : PyStr) : InitOutcome :=
  let out_name := (pySplit '.' ((pySplit '/' model_file).getLastD [])).headD []
  { state :=
      { model_file := model_file
        outdir := outdir
        method := method
        gene_list := none
        model_obj := none
        gene_info := []
        out_name := out_name
        out_res := outdir ++ "/".data ++ out_name ++ "_knock_res.txt".data }
    shell_cmds :=
      if existsFn outdir then [] else ["mkdir -p ".data ++ outdir] }

/-- `Knockout.set_gene_list` (`knockout.py:97-101`). -/
def Knockout.set_gene_list (st : Knockout) (gene_list : List PyStr) : Knockout :=
  { st with gene_list := some gene_list }

/-- `Knockout.parse_gene_info_from_model` (`knockout.py:103-107`): folds
`self.gene_info.update({r.id: r.name})` over `self.model_obj.genes` without
clearing the dict, then logs `f"Total Genes: {len(self.gene_info)}"`.
`none` models the `AttributeError` crash when no model has been loaded. -/
def Knockout.parse_gene_info_from_model (st : Knockout) :
    Option (Knockout × String) :=
  st.model_obj.map fun m =>
    let gi := m.genes.foldl (fun d g => pyDictUpdate d g.id g.name) st.gene_info
    ({ st with gene_info := gi }, "Total Genes: " ++ toString gi.length)

/-- `Knockout.load_data` (`knockout.py:93-95`), parameterized by the model
the loader returned: stores it in `model_obj`, then parses the gene info.
The `getD` default is unreachable because `model_obj` was just set. -/
def Knockout.load_data (st : Knockout) (loaded : Model) : Knockout × String :=
  let st' := { st with model_obj := some loaded }
  (st'.parse_gene_info_from_model).getD (st', "")

/-! ### Shell semantics for the `mkdir` call

Modeled from the documented behavior of `subprocess.check_call(cmd,
shell=True)`: the command string undergoes POSIX field splitting on
whitespace before `mkdir` sees its arguments, so an unquoted `outdir`
containing spaces is passed as several operands and `mkdir -p` creates one
directory per operand. -/

def shellFields (cmd : PyStr) : List PyStr :=
  (pySplit ' ' cmd).filter (fun p => p ≠ [])

def mkdirTargets (cmd : PyStr) : List PyStr :=
  if (shellFields cmd).take 2 = ["mkdir".data, "-p".data] then
    (shellFields cmd).drop 2
  else []

/-! ### `run_knockout`

`single_gene_deletion` is external; its result is a table whose `ids`
column holds frozensets (embedded as lists of ids), plus a growth value and
a solver status.  Growth values are carried as their textual rendering:
the repository performs no arithmetic on them, only pass-through to the
tab-separated output.  Line 116 maps `list(x)[0]` over the whole `ids`
column (an empty set raises `IndexError`), line 117 maps the
`self.gene_info[x]` lookup over the column (a missing key raises
`KeyError`), and only then does line 119 write the file.  A raised
exception aborts the run before `to_csv` executes, so on error no write is
recorded. -/

structure DeletionRow where
  ids : List PyStr
  growth : PyStr
  status : PyStr
deriving DecidableEq

structure NormRow where
  id : PyStr
  growth : PyStr
  status : PyStr
deriving DecidableEq

structure NamedRow where
  id : PyStr
  growth : PyStr
  status : PyStr
  name : PyStr
deriving DecidableEq

inductive KnockErr
  | keyError (k : PyStr)
  | indexError
deriving DecidableEq

/-- Column-wise `apply` over a pandas series: the first raised exception
aborts the whole statement. -/
def exceptMap {α β : Type} (f : α → Except KnockErr β) :
    List α → Except KnockErr (List β)
  | [] => .ok []
  | a :: l =>
    match f a with
    | .error e => .error e
    | .ok b =>
      match exceptMap f l with
      | .error e => .error e
      | .ok bs => .ok (b :: bs)

/-- `gene_status["ids"].apply(lambda x: list(x)[0])` (`knockout.py:116`). -/
def normalizeIds (rows : List DeletionRow) : Except KnockErr (List NormRow) :=
  exceptMap
    (fun r =>
      match r.ids.head? with
      | some i => .ok { id := i, growth := r.growth, status := r.status }
      | none => .error .indexError)
    rows

/-- `gene_status["ids"].apply(lambda x: self.gene_info[x])` joined back as
the `name` column (`knockout.py:117`). -/
def attachNames (gi : PyDict) (rows : List NormRow) :
    Except KnockErr (List NamedRow) :=
  exceptMap
    (fun r =>
      match pyDictGet gi r.id with
      | some n =>
        .ok { id := r.id, growth := r.growth, status := r.status, name := n }
      | none => .error (.keyError r.id))
    rows

/-- One line of `to_csv(..., sep="\t", index=None)` output. -/
def renderRow (r : NamedRow) : PyStr :=
  r.id ++ "\t".data ++ r.growth ++ "\t".data ++ r.status ++ "\t".data
    ++ r.name ++ "\n".data

structure RunResult where
  writes : List (PyStr × PyStr)
  error : Option KnockErr
deriving DecidableEq

/-- `Knockout.run_knockout` (`knockout.py:109-119`).  `writes` records the
`(path, content)` pairs handed to the filesystem; an exception leaves it
empty. -/
def Knockout.run_knockout (st : Knockout) (rows : List DeletionRow) :
    RunResult :=
  match normalizeIds rows with
  | .error e => { writes := [], error := some e }
  | .ok nrows =>
    match attachNames st.gene_info nrows with
    | .error e => { writes := [], error := some e }
    | .ok named =>
      { writes :=
          [(st.out_res,
            "ids\tgrowth\tstatus\tname\n".data ++ (named.map renderRow).flatten)]
        error := none }

/-- `to_csv` opens the target in write mode: applying a write replaces
whatever the filesystem previously held at that path. -/
def applyWrites (fs : PyStr → Option PyStr) (ws : List (PyStr × PyStr)) :
    PyStr → Option PyStr :=
  ws.foldl (fun f w => fun q => if q = w.1 then some w.2 else f q) fs

/-! ### CLI gene-list reading

`main` (`knockout.py:137-140`) does `open(args.gene_list)` in default text
mode and `[gene.strip("\n") for gene in fd.readlines()]`.  Per Python's
documented `open` semantics, `newline=None` enables universal newlines: on
reading, `"\r\n"` and lone `"\r"` are translated to `"\n"` before
`readlines` splits the stream. -/

def universalNewlines : PyStr → PyStr
  | [] => []
  | [c] => [if c = '\r' then '\n' else c]
  | c1 :: c2 :: rest =>
    if c1 = '\r' then
      if c2 = '\n' then '\n' :: universalNewlines rest
      else '\n' :: universalNewlines (c2 :: rest)
    else c1 :: universalNewlines (c2 :: rest)

/-- `fd.readlines()`: split after every `'\n'`, keeping the terminator;
a final chunk without a terminator is kept, an empty stream gives no
lines. -/
def pyReadlines : PyStr → List PyStr
  | [] => []
  | c :: rest =>
    if c = '\n' then ['\n'] :: pyReadlines rest
    else
      match pyReadlines rest with
      | [] => [[c]]
      | h :: t => (c :: h) :: t

/-- Python `s.strip("\n")`: remove `'\n'` characters from both ends. -/
def pyStripNewline (s : PyStr) : PyStr :=
  ((s.dropWhile (· = '\n')).reverse.dropWhile (· = '\n')).reverse

/-- The gene list handed to `set_gene_list` by `main` for a gene-list file
whose on-disk text is `raw`. -/
def cliGeneList (raw : PyStr) : List PyStr :=
  (pyReadlines (universalNewlines raw)).map pyStripNewline

/-- `runner.set_gene_list(gene_list)` as executed by `main`. -/
def cliApplyGeneList (st : Knockout) (raw : PyStr) : Knockout :=
  st.set_gene_list (cliGeneList raw)

/-! ### Spec-side path arithmetic

Independent renderings of the spec's wording: "the substring after the
last separator" and "truncation at the first dot", phrased directly with
`takeWhile` rather than through `split`. -/

def afterLastSep (sep : Char) (s : PyStr) : PyStr :=
  (s.reverse.takeWhile (· ≠ sep)).reverse

/-- The spec's "lowercase the path, take the substring after the last
'.'". -/
def specExtAfterLastDot (file : PyStr) : PyStr :=
  afterLastSep '.' (file.map Char.toLower)

/-- The spec's "substring after the last '/', truncated at the first
'.'". -/
def specOutName (model_file : PyStr) : PyStr :=
  (afterLastSep '/' model_file).takeWhile (· ≠ '.')

theorem file_ext_eq_spec (file : PyStr) :
    file_ext file = specExtAfterLastDot file :=
  getLastD_pySplit '.' (file.map Char.toLower)

theorem out_name_eq_spec (model_file : PyStr) :
    (pySplit '.' ((pySplit '/' model_file).getLastD [])).headD []
      = specOutName model_file := by
  rw [headD_pySplit, getLastD_pySplit]
  rfl

theorem wrapParser_calls {mu : Type} (file ext : PyStr) (k : ParserKind)
    (res : Except PyExc mu) : (wrapParser file ext k res).calls = [k] := rfl

/-- Claim C2: the `Knockout` constructor derives `out_name` as the
substring of `model_file` after the last `'/'` truncated at the first
`'.'`, and sets the output path to
`outdir + "/" + out_name + "_knock_res.txt"`; for model file
`/data/my.model.v2.xml` and outdir `/out` this is
`/out/my_knock_res.txt`. -/
theorem claim_C2 (existsFn : PyStr → Bool) (model_file outdir method : PyStr) :
    (Knockout.init existsFn model_file outdir method).state.out_res
      = outdir ++ "/".data ++ specOutName model_file ++ "_knock_res.txt".data
    ∧ (Knockout.init existsFn "/data/my.model.v2.xml".data "/out".data
        method).state.out_res = "/out/my_knock_res.txt".data := by
  constructor
  · simp only [Knockout.init]
    rw [out_name_eq_spec]
  · simp only [Knockout.init]
    rw [out_name_eq_spec]
    decide

theorem load_eq_sbml {mu : Type} (existsFn : PyStr → Bool)
    (p1 p2 p3 : PyStr → Except PyExc mu) (file : PyStr)
    (hex : existsFn file = true) (hx : file_ext file = "xml".data) :
    load_model_from_file existsFn p1 p2 p3 file
      = wrapParser file ("xml".data) .sbml (p1 file) := by
  simp [load_model_from_file, hex, hx]

theorem load_eq_json {mu : Type} (existsFn : PyStr → Bool)
    (p1 p2 p3 : PyStr → Except PyExc mu) (file : PyStr)
    (hex : existsFn file = true) (hx : file_ext file = "json".data) :
    load_model_from_file existsFn p1 p2 p3 file
      = wrapParser file ("json".data) .json (p2 file) := by
  simp [load_model_from_file, hex, hx]

theorem load_eq_mat {mu : Type} (existsFn : PyStr → Bool)
    (p1 p2 p3 : PyStr → Except PyExc mu) (file : PyStr)
    (hex : existsFn file = true) (hx : file_ext file = "mat".data) :
    load_model_from_file existsFn p1 p2 p3 file
      = wrapParser file ("mat".data) .mat (p3 file) := by
  simp [load_model_from_file, hex, hx]

/-- Claim C3: for an existing path whose lowercased substring after the
last `'.'` is `xml`, `json`, or `mat`, `load_model_from_file` invokes
exactly the corresponding parser exactly once and returns that parser's
result unchanged. -/
theorem claim_C3 {mu : Type} (existsFn : PyStr → Bool)
    (read_sbml_model load_json_model load_matlab_model :
      PyStr → Except PyExc mu)
    (file : PyStr) (hex : existsFn file = true) :
    (specExtAfterLastDot file = "xml".data →
      (load_model_from_file existsFn read_sbml_model load_json_model
          load_matlab_model file).calls = [ParserKind.sbml]
      ∧ ∀ m, read_sbml_model file = .ok m →
        (load_model_from_file existsFn read_sbml_model load_json_model
            load_matlab_model file).result = .ok m)
    ∧ (specExtAfterLastDot file = "json".data →
      (load_model_from_file existsFn read_sbml_model load_json_model
          load_matlab_model file).calls = [ParserKind.json]
      ∧ ∀ m, load_json_model file = .ok m →
        (load_model_from_file existsFn read_sbml_model load_json_model
            load_matlab_model file).result = .ok m)
    ∧ (specExtAfterLastDot file = "mat".data →
      (load_model_from_file existsFn read_sbml_model load_json_model
          load_matlab_model file).calls = [ParserKind.mat]
      ∧ ∀ m, load_matlab_model file = .ok m →
        (load_model_from_file existsFn read_sbml_model load_json_model
            load_matlab_model file).result = .ok m) := by
  refine ⟨fun hx => ?_, fun hx => ?_, fun hx => ?_⟩
  · rw [load_eq_sbml existsFn _ _ _ file hex ((file_ext_eq_spec file).trans hx)]
    exact ⟨rfl, fun m hm => by rw [hm]; rfl⟩
  · rw [load_eq_json existsFn _ _ _ file hex ((file_ext_eq_spec file).trans hx)]
    exact ⟨rfl, fun m hm => by rw [hm]; rfl⟩
  · rw [load_eq_mat existsFn _ _ _ file hex ((file_ext_eq_spec file).trans hx)]
    exact ⟨rfl, fun m hm => by rw [hm]; rfl⟩

def exAll : PyStr → Bool := fun _ => true

def exParserOk (n : Nat) : PyStr → Except PyExc Nat := fun _ => .ok n

def exParserKeyErr : PyStr → Except PyExc Nat := fun _ => .error .keyError

theorem claim_C3_witness :
    (load_model_from_file exAll (exParserOk 7) (exParserOk 8) (exParserOk 9)
        "model.xml".data).calls = [ParserKind.sbml]
    ∧ (load_model_from_file exAll (exParserOk 7) (exParserOk 8) (exParserOk 9)
        "model.xml".data).result = .ok 7 := by
  have h := (claim_C3 exAll (exParserOk 7) (exParserOk 8) (exParserOk 9)
    "model.xml".data rfl).1 (by decide)
  exact ⟨h.1, h.2 7 rfl⟩

/-- Claim C4: for an existing path whose lowercased substring after the
last `'.'` is not one of `xml`, `json`, `mat`, `load_model_from_file`
fails with `FileNotFoundError(f"error {ext}")` without invoking any
parser. -/
theorem claim_C4 {mu : Type} (existsFn : PyStr → Bool)
    (read_sbml_model load_json_model load_matlab_model :
      PyStr → Except PyExc mu)
    (file : PyStr) (hex : existsFn file = true)
    (h : specExtAfterLastDot file ∉
      [("xml".data : PyStr), "json".data, "mat".data]) :
    (load_model_from_file existsFn read_sbml_model load_json_model
        load_matlab_model file).calls = []
    ∧ (load_model_from_file existsFn read_sbml_model load_json_model
        load_matlab_model file).result
      = .error (.fileNotFound ("error ".data ++ specExtAfterLastDot file)) := by
  have hfe := file_ext_eq_spec file
  have h1 : ¬ file_ext file = "xml".data := by
    rw [hfe]
    intro hc
    exact h (by rw [hc]; exact List.mem_cons_self _ _)
  have h2 : ¬ file_ext file = "json".data := by
    rw [hfe]
    intro hc
    exact h (by rw [hc]; exact List.mem_cons_of_mem _ (List.mem_cons_self _ _))
  have h3 : ¬ file_ext file = "mat".data := by
    rw [hfe]
    intro hc
    refine h ?_
    rw [hc]
    exact List.mem_cons_of_mem _ (List.mem_cons_of_mem _
      (List.mem_cons_self _ _))
  unfold load_model_from_file
  rw [if_pos hex, if_neg h1, if_neg h2, if_neg h3, hfe]
  exact ⟨rfl, rfl⟩

theorem claim_C4_witness :
    (load_model_from_file exAll (exParserOk 7) (exParserOk 8) (exParserOk 9)
        "model.txt".data).calls = []
    ∧ (load_model_from_file exAll (exParserOk 7) (exParserOk 8) (exParserOk 9)
        "model.txt".data).result
      = .error (.fileNotFound ("error ".data
          ++ specExtAfterLastDot "model.txt".data)) :=
  claim_C4 exAll (exParserOk 7) (exParserOk 8) (exParserOk 9)
    "model.txt".data rfl (by decide)

/-- Claim C8: a `KeyError` raised from inside the matched parser itself is
also caught by the `try` block of `load_model_from_file` and re-raised as
`FileNotFoundError` naming the extension, because the `try` wraps the
parser invocation together with the extension lookup. -/
theorem claim_C8 {mu : Type} (existsFn : PyStr → Bool)
    (read_sbml_model load_json_model load_matlab_model :
      PyStr → Except PyExc mu)
    (file : PyStr) (hex : existsFn file = true) :
    (file_ext file = "xml".data → read_sbml_model file = .error .keyError →
      (load_model_from_file existsFn read_sbml_model load_json_model
          load_matlab_model file).calls = [ParserKind.sbml]
      ∧ (load_model_from_file existsFn read_sbml_model load_json_model
          load_matlab_model file).result
        = .error (.fileNotFound ("error xml".data)))
    ∧ (file_ext file = "json".data → load_json_model file = .error .keyError →
      (load_model_from_file existsFn read_sbml_model load_json_model
          load_matlab_model file).calls = [ParserKind.json]
      ∧ (load_model_from_file existsFn read_sbml_model load_json_model
          load_matlab_model file).result
        = .error (.fileNotFound ("error json".data)))
    ∧ (file_ext file = "mat".data → load_matlab_model file = .error .keyError →
      (load_model_from_file existsFn read_sbml_model load_json_model
          load_matlab_model file).calls = [ParserKind.mat]
      ∧ (load_model_from_file existsFn read_sbml_model load_json_model
          load_matlab_model file).result
        = .error (.fileNotFound ("error mat".data))) := by
  refine ⟨fun hx hp => ?_, fun hx hp => ?_, fun hx hp => ?_⟩
  · rw [load_eq_sbml existsFn _ _ _ file hex hx, hp]
    exact ⟨rfl, rfl⟩
  · rw [load_eq_json existsFn _ _ _ file hex hx, hp]
    exact ⟨rfl, rfl⟩
  · rw [load_eq_mat existsFn _ _ _ file hex hx, hp]
    exact ⟨rfl, rfl⟩

theorem claim_C8_witness :
    (load_model_from_file exAll (exParserOk 7) (exParserOk 8) exParserKeyErr
        "model.mat".data).calls = [ParserKind.mat]
    ∧ (load_model_from_file exAll (exParserOk 7) (exParserOk 8) exParserKeyErr
        "model.mat".data).result
      = .error (.fileNotFound ("error mat".data)) :=
  (claim_C8 exAll (exParserOk 7) (exParserOk 8) exParserKeyErr
    "model.mat".data rfl).2.2 (by decide) rfl

/-! ### Dictionary lemmas for the gene-info table -/

def optOr {α : Type} : Option α → Option α → Option α
  | some x, _ => some x
  | none, b => b

theorem optOr_none {α : Type} (a : Option α) : optOr a none = a := by
  cases a <;> rfl

theorem isSome_optOr {α : Type} (a b : Option α) :
    (optOr a b).isSome = (a.isSome || b.isSome) := by
  cases a <;> simp [optOr]

theorem pyDictGet_update (d : PyDict) (i v k : PyStr) :
    pyDictGet (pyDictUpdate d i v) k
      = if k = i then some v else pyDictGet d k := by
  induction d with
  | nil =>
    simp only [pyDictUpdate, pyDictGet]
    by_cases h : k = i
    · simp [h]
    · rw [if_neg (fun hh => h hh.symm), if_neg h]
  | cons p rest ih =>
    obtain ⟨k', v'⟩ := p
    simp only [pyDictUpdate]
    by_cases hki : k' = i
    · subst hki
      simp only [if_pos rfl, pyDictGet]
      by_cases hk : k = k'
      · simp [hk]
      · have hk2 : ¬ k' = k := fun hh => hk hh.symm
        simp [pyDictGet, hk, hk2]
    · simp only [if_neg hki, pyDictGet, ih]
      by_cases hk : k' = k <;> by_cases hi : k = i <;> simp_all

theorem mem_pyDictKeys_iff (d : PyDict) (k : PyStr) :
    k ∈ pyDictKeys d ↔ (pyDictGet d k).isSome := by
  induction d with
  | nil => simp [pyDictKeys, pyDictGet]
  | cons p rest ih =>
    obtain ⟨k', v'⟩ := p
    simp only [pyDictKeys, List.map_cons, List.mem_cons, pyDictGet]
    by_cases hk : k' = k
    · simp [hk]
    · simp only [if_neg hk]
      constructor
      · intro h
        rcases h with h | h
        · exact absurd h.symm hk
        · exact (ih.mp (by simpa [pyDictKeys] using h))
      · intro h
        exact Or.inr (by simpa [pyDictKeys] using ih.mpr h)

theorem pyDictKeys_update (d : PyDict) (i v : PyStr) :
    pyDictKeys (pyDictUpdate d i v)
      = if i ∈ pyDictKeys d then pyDictKeys d else pyDictKeys d ++ [i] := by
  induction d with
  | nil => simp [pyDictUpdate, pyDictKeys]
  | cons p rest ih =>
    obtain ⟨k', v'⟩ := p
    simp only [pyDictUpdate, pyDictKeys, List.map_cons]
    by_cases hki : k' = i
    · subst hki
      simp [List.mem_cons]
    · simp only [if_neg hki, List.map_cons]
      have hki2 : ¬ i = k' := fun hh => hki hh.symm
      have hmem : i ∈ k' :: rest.map Prod.fst ↔ i ∈ rest.map Prod.fst := by
        simp [List.mem_cons, hki2]
      by_cases hm : i ∈ rest.map Prod.fst
      · simp only [pyDictKeys] at ih
        simp [hmem, hm, ih]
      · simp only [pyDictKeys] at ih
        simp [hmem, hm, ih]

theorem nodup_pyDictKeys_update (d : PyDict) (i v : PyStr)
    (h : (pyDictKeys d).Nodup) :
    (pyDictKeys (pyDictUpdate d i v)).Nodup := by
  rw [pyDictKeys_update]
  by_cases hm : i ∈ pyDictKeys d
  · simpa [hm]
  · simp [hm, List.nodup_append, h]

theorem length_pyDictUpdate (d : PyDict) (i v : PyStr) :
    (pyDictUpdate d i v).length
      = if i ∈ pyDictKeys d then d.length else d.length + 1 := by
  have h := congrArg List.length (pyDictKeys_update d i v)
  simp only [pyDictKeys, List.length_map, apply_ite List.length,
    List.length_append, List.length_singleton] at h
  exact h

theorem getLast?_cons_eq_optOr {α : Type} (a : α) (l : List α) :
    (a :: l).getLast? = optOr l.getLast? (some a) := by
  cases l with
  | nil => simp [optOr]
  | cons b t =>
    rw [List.getLast?_cons_cons]
    cases h : (b :: t).getLast? with
    | none =>
      have hs : ((b :: t).getLast?).isSome := by
        rw [List.getLast?_isSome]
        simp
      rw [h] at hs
      simp at hs
    | some x => simp [optOr]

theorem pyDictGet_foldl (genes : List Gene) (d : PyDict) (k : PyStr) :
    pyDictGet (genes.foldl (fun d g => pyDictUpdate d g.id g.name) d) k
      = optOr (((genes.filter fun g => g.id = k).map Gene.name).getLast?)
          (pyDictGet d k) := by
  induction genes generalizing d with
  | nil => simp [optOr]
  | cons g gs ih =>
    simp only [List.foldl_cons]
    rw [ih, pyDictGet_update]
    by_cases hg : g.id = k
    · have hk : k = g.id := hg.symm
      rw [if_pos hk]
      rw [List.filter_cons_of_pos (by simpa using hg), List.map_cons,
        getLast?_cons_eq_optOr]
      cases hl : ((gs.filter fun g => g.id = k).map Gene.name).getLast? with
      | none => simp [optOr]
      | some x => simp [optOr]
    · rw [if_neg (fun hh => hg hh.symm)]
      rw [List.filter_cons_of_neg (by simpa using hg)]

theorem pyDictGet_foldl_isSome (genes : List Gene) (d : PyDict) (k : PyStr) :
    (pyDictGet (genes.foldl (fun d g => pyDictUpdate d g.id g.name) d) k).isSome
      ↔ k ∈ genes.map Gene.id ∨ (pyDictGet d k).isSome := by
  rw [pyDictGet_foldl, isSome_optOr]
  simp only [Bool.or_eq_true, List.getLast?_isSome]
  constructor
  · intro h
    rcases h with h | h
    · left
      have : (genes.filter fun g => g.id = k) ≠ [] := by
        intro hc
        rw [hc] at h
        simp at h
      rcases List.exists_mem_of_ne_nil _ this with ⟨g, hg⟩
      have hgk := List.of_mem_filter hg
      simp only [decide_eq_true_eq] at hgk
      exact hgk ▸ List.mem_map_of_mem Gene.id (List.mem_of_mem_filter hg)
    · exact Or.inr h
  · intro h
    rcases h with h | h
    · left
      rcases List.mem_map.mp h with ⟨g, hg, rfl⟩
      intro hc
      have hmemf : g ∈ (genes.filter fun g' => g'.id = g.id) :=
        List.mem_filter.mpr ⟨hg, by simp⟩
      have hfil := List.map_eq_nil_iff.mp hc
      rw [hfil] at hmemf
      simp at hmemf
    · exact Or.inr h

theorem nodup_keys_foldl (genes : List Gene) (d : PyDict)
    (h : (pyDictKeys d).Nodup) :
    (pyDictKeys
      (genes.foldl (fun d g => pyDictUpdate d g.id g.name) d)).Nodup := by
  induction genes generalizing d with
  | nil => simpa
  | cons g gs ih =>
    simp only [List.foldl_cons]
    exact ih _ (nodup_pyDictKeys_update _ _ _ h)

theorem length_foldl_of_nodup (genes : List Gene) (d : PyDict)
    (hnd : (genes.map Gene.id).Nodup)
    (hfresh : ∀ g ∈ genes, pyDictGet d g.id = none) :
    (genes.foldl (fun d g => pyDictUpdate d g.id g.name) d).length
      = d.length + genes.length := by
  induction genes generalizing d with
  | nil => simp
  | cons g gs ih =>
    simp only [List.foldl_cons]
    rw [List.map_cons, List.nodup_cons] at hnd
    have hmem : g.id ∉ pyDictKeys d := by
      rw [mem_pyDictKeys_iff, hfresh g (List.mem_cons_self g gs)]
      simp
    have hlen := length_pyDictUpdate d g.id g.name
    rw [if_neg hmem] at hlen
    have hfresh' : ∀ g' ∈ gs, pyDictGet (pyDictUpdate d g.id g.name) g'.id
        = none := by
      intro g' hg'
      rw [pyDictGet_update]
      have hne : g'.id ≠ g.id := by
        intro hh
        exact hnd.1 (by rw [← hh]; exact List.mem_map_of_mem Gene.id hg')
      rw [if_neg hne]
      exact hfresh g' (List.mem_cons_of_mem _ hg')
    rw [ih _ hnd.2 hfresh', hlen]
    simp only [List.length_cons]
    omega

/-! ### Claims C5 and C9: gene-info extraction -/

theorem load_data_gene_info (st : Knockout) (m : Model) :
    (st.load_data m).1.gene_info
      = m.genes.foldl (fun d g => pyDictUpdate d g.id g.name) st.gene_info
    ∧ (st.load_data m).2
      = "Total Genes: " ++ toString (st.load_data m).1.gene_info.length := by
  simp [Knockout.load_data, Knockout.parse_gene_info_from_model]

/-- `load_data` on a freshly constructed `Knockout` (whose `gene_info`
starts empty), with the model the external loader returned. -/
def loadFresh (existsFn : PyStr → Bool) (mf od meth : PyStr)
    (genes : List Gene) : Knockout × String :=
  (Knockout.init existsFn mf od meth).state.load_data { genes := genes }

/-- A second `load_data` on the same instance with a different model, as
happens when `load_data` is called twice. -/
def reload (existsFn : PyStr → Bool) (mf od meth : PyStr)
    (genes1 genes2 : List Gene) : Knockout × String :=
  (loadFresh existsFn mf od meth genes1).1.load_data { genes := genes2 }

theorem loadFresh_gene_info (existsFn : PyStr → Bool) (mf od meth : PyStr)
    (genes : List Gene) :
    (loadFresh existsFn mf od meth genes).1.gene_info
      = genes.foldl (fun d g => pyDictUpdate d g.id g.name) [] := by
  have h := (load_data_gene_info (Knockout.init existsFn mf od meth).state
    { genes := genes }).1
  simpa [loadFresh, Knockout.init] using h

/-- Claim C5: on a loaded model, `parse_gene_info_from_model` produces a
`gene_info` map whose key set is exactly the model's gene-id set, mapping
each id to the name of the last gene carrying it (later duplicates
overwrite earlier ones), and logs the map's size; for distinct ids this
size is the model's gene count. -/
theorem claim_C5 (existsFn : PyStr → Bool) (mf od meth : PyStr)
    (genes : List Gene) :
    (∀ k, pyDictGet (loadFresh existsFn mf od meth genes).1.gene_info k
        = ((genes.filter fun g => g.id = k).map Gene.name).getLast?)
    ∧ (∀ k,
        (pyDictGet (loadFresh existsFn mf od meth genes).1.gene_info k).isSome
          ↔ k ∈ genes.map Gene.id)
    ∧ (loadFresh existsFn mf od meth genes).2
        = "Total Genes: "
          ++ toString (loadFresh existsFn mf od meth genes).1.gene_info.length
    ∧ ((genes.map Gene.id).Nodup →
        (loadFresh existsFn mf od meth genes).2
          = "Total Genes: " ++ toString genes.length) := by
  have hgi := loadFresh_gene_info existsFn mf od meth genes
  refine ⟨fun k => ?_, fun k => ?_, ?_, fun hnd => ?_⟩
  · rw [hgi, pyDictGet_foldl]
    simp [pyDictGet, optOr_none]
  · rw [hgi, pyDictGet_foldl_isSome]
    simp [pyDictGet]
  · exact (load_data_gene_info _ _).2
  · have hlen : (loadFresh existsFn mf od meth genes).1.gene_info.length
        = genes.length := by
      rw [hgi, length_foldl_of_nodup genes [] hnd (fun g _ => rfl)]
      simp
    have hlog : (loadFresh existsFn mf od meth genes).2
        = "Total Genes: "
          ++ toString (loadFresh existsFn mf od meth genes).1.gene_info.length
        := (load_data_gene_info _ _).2
    rw [hlog, hlen]

def exGenes3 : List Gene :=
  [{ id := "g1".data, name := "alpha".data },
   { id := "g2".data, name := "beta".data },
   { id := "g3".data, name := "gamma".data }]

theorem claim_C5_witness :
    (loadFresh exAll "/d/m.xml".data "/o".data "fba".data exGenes3).2
      = "Total Genes: 3" := by
  have h := (claim_C5 exAll "/d/m.xml".data "/o".data "fba".data
    exGenes3).2.2.2 (by decide)
  rw [h]
  rfl

theorem reload_gene_info (existsFn : PyStr → Bool) (mf od meth : PyStr)
    (genes1 genes2 : List Gene) :
    (reload existsFn mf od meth genes1 genes2).1.gene_info
      = genes2.foldl (fun d g => pyDictUpdate d g.id g.name)
          ((loadFresh existsFn mf od meth genes1).1.gene_info) :=
  (load_data_gene_info (loadFresh existsFn mf od meth genes1).1
    { genes := genes2 }).1

/-- Claim C9: `parse_gene_info_from_model` never clears `gene_info`, so a
second `load_data` with a different model leaves the union of both models'
entries: ids unique to the first model persist with their old names, and
the logged "Total Genes" count is the number of distinct ids across both
models, not the second model's gene count. -/
theorem claim_C9 (existsFn : PyStr → Bool) (mf od meth : PyStr)
    (genes1 genes2 : List Gene) :
    (∀ k,
      (pyDictGet (reload existsFn mf od meth genes1 genes2).1.gene_info
          k).isSome
        ↔ (k ∈ genes1.map Gene.id ∨ k ∈ genes2.map Gene.id))
    ∧ (∀ k, k ∈ genes1.map Gene.id → k ∉ genes2.map Gene.id →
        pyDictGet (reload existsFn mf od meth genes1 genes2).1.gene_info k
          = pyDictGet (loadFresh existsFn mf od meth genes1).1.gene_info k)
    ∧ (reload existsFn mf od meth genes1 genes2).2
        = "Total Genes: "
          ++ toString
            ((genes1.map Gene.id ++ genes2.map Gene.id).dedup.length) := by
  have hgi1 := loadFresh_gene_info existsFn mf od meth genes1
  have hgi2 := reload_gene_info existsFn mf od meth genes1 genes2
  have hchar : ∀ k,
      (pyDictGet (reload existsFn mf od meth genes1 genes2).1.gene_info
          k).isSome
        ↔ (k ∈ genes1.map Gene.id ∨ k ∈ genes2.map Gene.id) := by
    intro k
    rw [hgi2, pyDictGet_foldl_isSome, hgi1, pyDictGet_foldl_isSome]
    have hnil : (pyDictGet [] k).isSome = false := rfl
    rw [hnil]
    simp only [Bool.false_eq_true, or_false]
    tauto
  refine ⟨hchar, fun k hk1 hk2 => ?_, ?_⟩
  · rw [hgi2, pyDictGet_foldl]
    have hfil : (genes2.filter fun g => g.id = k) = [] := by
      rw [List.filter_eq_nil_iff]
      intro g hg
      simp only [decide_eq_true_eq]
      intro hh
      exact hk2 (hh ▸ List.mem_map_of_mem Gene.id hg)
    rw [hfil]
    simp [optOr]
  · have hnodup :
        (pyDictKeys
          (reload existsFn mf od meth genes1 genes2).1.gene_info).Nodup := by
      rw [hgi2, hgi1]
      exact nodup_keys_foldl _ _
        (nodup_keys_foldl _ _ (by simp [pyDictKeys]))
    have hmemkeys : ∀ a,
        a ∈ pyDictKeys (reload existsFn mf od meth genes1 genes2).1.gene_info
          ↔ a ∈ genes1.map Gene.id ++ genes2.map Gene.id := by
      intro a
      rw [mem_pyDictKeys_iff, hchar a, List.mem_append]
    have hfin :
        (pyDictKeys
            (reload existsFn mf od meth genes1 genes2).1.gene_info).toFinset
          = (genes1.map Gene.id ++ genes2.map Gene.id).toFinset := by
      apply Finset.ext
      intro a
      rw [List.mem_toFinset, List.mem_toFinset]
      exact hmemkeys a
    have hlen :
        (reload existsFn mf od meth genes1 genes2).1.gene_info.length
          = (genes1.map Gene.id ++ genes2.map Gene.id).dedup.length := by
      have h1 :
          (reload existsFn mf od meth genes1 genes2).1.gene_info.length
            = (pyDictKeys
                (reload existsFn mf od meth genes1 genes2).1.gene_info).length
          := by
        simp [pyDictKeys]
      rw [h1, ← List.dedup_eq_self.mpr hnodup, ← List.card_toFinset,
        hfin, List.card_toFinset]
    have hlog : (reload existsFn mf od meth genes1 genes2).2
        = "Total Genes: "
          ++ toString
            (reload existsFn mf od meth genes1 genes2).1.gene_info.length :=
      (load_data_gene_info _ _).2
    rw [hlog, hlen]

def exGenesA : List Gene :=
  [{ id := "g1".data, name := "n1".data },
   { id := "g2".data, name := "n2".data }]

def exGenesB : List Gene :=
  [{ id := "g2".data, name := "m2".data },
   { id := "g3".data, name := "n3".data }]

theorem claim_C9_witness :
    (reload exAll "/d/m.xml".data "/o".data "fba".data exGenesA exGenesB).2
      = "Total Genes: 3"
    ∧ pyDictGet
        (reload exAll "/d/m.xml".data "/o".data "fba".data exGenesA
          exGenesB).1.gene_info "g1".data = some "n1".data := by
  have h := claim_C9 exAll "/d/m.xml".data "/o".data "fba".data
    exGenesA exGenesB
  constructor
  · rw [h.2.2]
    rfl
  · rw [h.2.1 "g1".data (by decide) (by decide)]
    decide

/-! ### Claims C1 and C6: `run_knockout` -/

/-- The row after line 116's normalization: `list(x)[0]` of the
one-element id set. -/
def toNormRow (r : DeletionRow) : NormRow :=
  { id := r.ids.headD [], growth := r.growth, status := r.status }

/-- The row after line 117's join against `gene_info`. -/
def toNamedRow (gi : PyDict) (r : NormRow) : NamedRow :=
  { id := r.id, growth := r.growth, status := r.status,
    name := (pyDictGet gi r.id).getD [] }

theorem exceptMap_ok {α β : Type} (f : α → Except KnockErr β) (g : α → β)
    (l : List α) (h : ∀ a ∈ l, f a = .ok (g a)) :
    exceptMap f l = .ok (l.map g) := by
  induction l with
  | nil => rfl
  | cons a t ih =>
    simp only [exceptMap, h a (List.mem_cons_self a t),
      ih (fun b hb => h b (List.mem_cons_of_mem a hb)), List.map_cons]

theorem normalizeIds_ok (rows : List DeletionRow)
    (h : ∀ r ∈ rows, r.ids ≠ []) :
    normalizeIds rows = .ok (rows.map toNormRow) := by
  apply exceptMap_ok
  intro r hr
  cases hids : r.ids with
  | nil => exact absurd hids (h r hr)
  | cons i t => simp [hids, toNormRow]

theorem attachNames_ok (gi : PyDict) (rows : List NormRow)
    (h : ∀ r ∈ rows, (pyDictGet gi r.id).isSome) :
    attachNames gi rows = .ok (rows.map (toNamedRow gi)) := by
  apply exceptMap_ok
  intro r hr
  cases hg : pyDictGet gi r.id with
  | none =>
    have := h r hr
    rw [hg] at this
    simp at this
  | some n => simp [hg, toNamedRow]

theorem attachNames_error (gi : PyDict) (rows : List NormRow)
    (h : ∃ r ∈ rows, pyDictGet gi r.id = none) :
    ∃ k, attachNames gi rows = .error (.keyError k)
      ∧ pyDictGet gi k = none := by
  induction rows with
  | nil => simp at h
  | cons r rs ih =>
    cases hg : pyDictGet gi r.id with
    | none =>
      refine ⟨r.id, ?_, hg⟩
      simp only [attachNames, exceptMap, hg]
    | some n =>
      have h' : ∃ r' ∈ rs, pyDictGet gi r'.id = none := by
        rcases h with ⟨r', hr', hget⟩
        rcases List.mem_cons.mp hr' with rfl | hr'
        · rw [hg] at hget
          cases hget
        · exact ⟨r', hr', hget⟩
      rcases ih h' with ⟨k, hk1, hk2⟩
      refine ⟨k, ?_, hk2⟩
      simp only [attachNames] at hk1
      simp only [attachNames, exceptMap, hg, hk1]

/-- Claim C1: when some normalized identifier from the deletion result is
absent from `gene_info`, `run_knockout` aborts with a key-lookup error and
the `to_csv` write never executes: no output is recorded. -/
theorem claim_C1 (st : Knockout) (rows : List DeletionRow)
    (nrows : List NormRow)
    (hnorm : normalizeIds rows = .ok nrows)
    (hmiss : ∃ r ∈ nrows, pyDictGet st.gene_info r.id = none) :
    (st.run_knockout rows).writes = []
    ∧ ∃ k, (st.run_knockout rows).error = some (.keyError k)
        ∧ pyDictGet st.gene_info k = none := by
  rcases attachNames_error st.gene_info nrows hmiss with ⟨k, hk1, hk2⟩
  constructor
  · simp only [Knockout.run_knockout, hnorm, hk1]
  · refine ⟨k, ?_, hk2⟩
    simp only [Knockout.run_knockout, hnorm, hk1]

def exModelAB : Model :=
  { genes := [{ id := "A".data, name := "alpha".data },
              { id := "B".data, name := "beta".data }] }

def exStAB : Knockout :=
  ((Knockout.init exAll "/data/model.xml".data "/out".data
    "fba".data).state.load_data exModelAB).1

def exRowsBad : List DeletionRow :=
  [{ ids := ["C".data], growth := "0.1".data, status := "optimal".data }]

theorem claim_C1_witness :
    (exStAB.run_knockout exRowsBad).writes = []
    ∧ ∃ k, (exStAB.run_knockout exRowsBad).error = some (.keyError k)
        ∧ pyDictGet exStAB.gene_info k = none :=
  claim_C1 exStAB exRowsBad
    [{ id := "C".data, growth := "0.1".data, status := "optimal".data }]
    (by rfl) (by decide)

/-- The tab-separated text `run_knockout` is expected to produce, built
directly from the deletion rows and the gene-info lookups. -/
def expectedKnockTsv (gi : PyDict) (rows : List DeletionRow) : PyStr :=
  "ids\tgrowth\tstatus\tname\n".data
    ++ (rows.map fun r =>
        r.ids.headD [] ++ "\t".data ++ r.growth ++ "\t".data ++ r.status
          ++ "\t".data ++ (pyDictGet gi (r.ids.headD [])).getD []
          ++ "\n".data).flatten

/-- Claim C6: with every identifier present in `gene_info`,
`run_knockout` writes to `out_res` a single tab-separated file: header
`ids\tgrowth\tstatus\tname`, no index column, one row per deleted gene in
result order, the id taken from the one-element set and the name from
`gene_info`, and the write overwrites whatever the filesystem previously
held at that path. -/
theorem claim_C6 (st : Knockout) (rows : List DeletionRow)
    (h1 : ∀ r ∈ rows, r.ids ≠ [])
    (h2 : ∀ r ∈ rows, (pyDictGet st.gene_info (r.ids.headD [])).isSome) :
    (st.run_knockout rows).error = none
    ∧ (st.run_knockout rows).writes
        = [(st.out_res, expectedKnockTsv st.gene_info rows)]
    ∧ ∀ fs p, applyWrites fs (st.run_knockout rows).writes p
        = if p = st.out_res then some (expectedKnockTsv st.gene_info rows)
          else fs p := by
  have hn := normalizeIds_ok rows h1
  have ha := attachNames_ok st.gene_info (rows.map toNormRow)
    (by
      intro r hr
      rcases List.mem_map.mp hr with ⟨r0, hr0, rfl⟩
      exact h2 r0 hr0)
  have hcontent :
      "ids\tgrowth\tstatus\tname\n".data
        ++ (((rows.map toNormRow).map (toNamedRow st.gene_info)).map
            renderRow).flatten
        = expectedKnockTsv st.gene_info rows := by
    simp only [List.map_map, expectedKnockTsv]
    rfl
  have hwrites : (st.run_knockout rows).writes
      = [(st.out_res, expectedKnockTsv st.gene_info rows)] := by
    simp only [Knockout.run_knockout, hn, ha]
    rw [hcontent]
  have herr : (st.run_knockout rows).error = none := by
    simp only [Knockout.run_knockout, hn, ha]
  refine ⟨herr, hwrites, ?_⟩
  intro fs p
  rw [hwrites]
  simp [applyWrites]

def exRows : List DeletionRow :=
  [{ ids := ["A".data], growth := "0.5".data, status := "optimal".data },
   { ids := ["B".data], growth := "0.0".data, status := "infeasible".data }]

theorem claim_C6_witness :
    (exStAB.run_knockout exRows).error = none
    ∧ (exStAB.run_knockout exRows).writes
        = [("/out/model_knock_res.txt".data,
            ("ids\tgrowth\tstatus\tname\n"
              ++ "A\t0.5\toptimal\talpha\n"
              ++ "B\t0.0\tinfeasible\tbeta\n").data)] := by
  have h := claim_C6 exStAB exRows (by decide) (by decide)
  refine ⟨h.1, ?_⟩
  rw [h.2.1]
  decide

/-! ### Claim C7: CLI gene-list reading -/

theorem universalNewlines_no_cr_aux :
    ∀ n (s : PyStr), s.length ≤ n → '\r' ∉ universalNewlines s := by
  intro n
  induction n with
  | zero =>
    intro s hs
    have hnil : s = [] := List.length_eq_zero.mp (Nat.le_zero.mp hs)
    subst hnil
    simp [universalNewlines]
  | succ n ih =>
    intro s hs
    rcases s with _ | ⟨c1, rest1⟩
    · simp [universalNewlines]
    rcases rest1 with _ | ⟨c2, rest⟩
    · simp only [universalNewlines, List.mem_singleton]
      by_cases hc : c1 = '\r'
      · rw [if_pos hc]
        decide
      · rw [if_neg hc]
        exact fun hh => hc hh.symm
    · by_cases h1 : c1 = '\r'
      · by_cases h2 : c2 = '\n'
        · simp only [universalNewlines, if_pos h1, if_pos h2, List.mem_cons]
          intro hmem
          rcases hmem with h | h
          · exact absurd h (by decide)
          · exact ih rest (by simp at hs ⊢; omega) h
        · simp only [universalNewlines, if_pos h1, if_neg h2, List.mem_cons]
          intro hmem
          rcases hmem with h | h
          · exact absurd h (by decide)
          · exact ih (c2 :: rest) (by simp at hs ⊢; omega) h
      · simp only [universalNewlines, if_neg h1, List.mem_cons]
        intro hmem
        rcases hmem with h | h
        · exact h1 h.symm
        · exact ih (c2 :: rest) (by simp at hs ⊢; omega) h

/-- The text-mode stream never contains a carriage return: universal
newlines translate every `"\r\n"` and lone `"\r"` to `"\n"`. -/
theorem universalNewlines_no_cr (s : PyStr) : '\r' ∉ universalNewlines s :=
  universalNewlines_no_cr_aux s.length s le_rfl

/-- Every line produced by `readlines` carries `'\n'` at most as its final
character. -/
theorem pyReadlines_dropLast (s : PyStr) :
    ∀ l ∈ pyReadlines s, '\n' ∉ l.dropLast := by
  induction s with
  | nil => simp [pyReadlines]
  | cons c rest ih =>
    intro l hl
    by_cases hc : c = '\n'
    · simp only [pyReadlines, if_pos hc] at hl
      rcases List.mem_cons.mp hl with rfl | hl
      · simp
      · exact ih l hl
    · simp only [pyReadlines, if_neg hc] at hl
      cases hr : pyReadlines rest with
      | nil =>
        rw [hr] at hl
        simp only [List.mem_singleton] at hl
        subst hl
        simp
      | cons h t =>
        rw [hr] at hl
        rcases List.mem_cons.mp hl with rfl | hl
        · have hh := ih h (by rw [hr]; exact List.mem_cons_self h t)
          cases h with
          | nil => simp
          | cons x xs =>
            intro hmem
            have hmem' : '\n' ∈ c :: (x :: xs).dropLast := hmem
            rcases List.mem_cons.mp hmem' with he | hmem2
            · exact hc he.symm
            · exact hh hmem2
        · exact ih l (by rw [hr]; exact List.mem_cons_of_mem h hl)

/-- Characters of a `readlines` line come from the stream. -/
theorem mem_of_mem_pyReadlines (s : PyStr) :
    ∀ l ∈ pyReadlines s, ∀ c ∈ l, c ∈ s := by
  induction s with
  | nil => simp [pyReadlines]
  | cons a rest ih =>
    intro l hl c hc
    by_cases ha : a = '\n'
    · simp only [pyReadlines, if_pos ha] at hl
      rcases List.mem_cons.mp hl with rfl | hl
      · rw [List.mem_singleton] at hc
        subst hc
        subst ha
        exact List.mem_cons_self _ _
      · exact List.mem_cons_of_mem a (ih l hl c hc)
    · simp only [pyReadlines, if_neg ha] at hl
      cases hr : pyReadlines rest with
      | nil =>
        rw [hr] at hl
        simp only [List.mem_singleton] at hl
        subst hl
        rw [List.mem_singleton] at hc
        subst hc
        exact List.mem_cons_self c rest
      | cons hh t =>
        rw [hr] at hl
        rcases List.mem_cons.mp hl with rfl | hl
        · rcases List.mem_cons.mp hc with rfl | hc2
          · exact List.mem_cons_self c rest
          · exact List.mem_cons_of_mem a
              (ih hh (by rw [hr]; exact List.mem_cons_self hh t) c hc2)
        · exact List.mem_cons_of_mem a
            (ih l (by rw [hr]; exact List.mem_cons_of_mem hh hl) c hc)

theorem dropWhile_eq_self_of_not_mem (l : PyStr) (h : '\n' ∉ l) :
    l.dropWhile (fun x => decide (x = '\n')) = l := by
  cases l with
  | nil => rfl
  | cons a t =>
    have ha : ¬ a = '\n' := fun hh => h (hh ▸ List.mem_cons_self a t)
    simp [List.dropWhile_cons, ha]

/-- Over a `readlines` line, Python's `strip("\n")` removes exactly the
`'\n'` characters: everything else, spaces included, survives in place. -/
theorem pyStripNewline_eq_filter (l : PyStr) (h : '\n' ∉ l.dropLast) :
    pyStripNewline l = l.filter (fun x => decide (x ≠ '\n')) := by
  rcases List.eq_nil_or_concat l with rfl | ⟨core, c, rfl⟩
  · rfl
  · simp only [List.concat_eq_append] at h ⊢
    rw [List.dropLast_concat] at h
    have hfcore : core.filter (fun x => decide (x ≠ '\n')) = core :=
      List.filter_eq_self.mpr (fun a ha => by
        simp only [decide_eq_true_eq]
        intro hac
        exact h (hac ▸ ha))
    rw [List.filter_append, hfcore]
    by_cases hcornil : core = []
    · subst hcornil
      by_cases hc : c = '\n'
      · subst hc
        rfl
      · simp [pyStripNewline, List.dropWhile_cons, hc]
    · obtain ⟨d, core', rfl⟩ := List.exists_cons_of_ne_nil hcornil
      have hd : ¬ d = '\n' := fun hh => h (hh ▸ List.mem_cons_self d core')
      have hfront : ((d :: core') ++ [c]).dropWhile (fun x => decide (x = '\n'))
          = (d :: core') ++ [c] := by
        simp [List.dropWhile_cons, hd]
      unfold pyStripNewline
      rw [hfront]
      by_cases hc : c = '\n'
      · subst hc
        rw [List.reverse_append]
        have hrev : (['\n'] : PyStr).reverse ++ (d :: core').reverse
            = '\n' :: (d :: core').reverse := by
          simp
        rw [hrev, List.dropWhile_cons_of_pos (by simp)]
        have hnomem : '\n' ∉ (d :: core').reverse := by
          rw [List.mem_reverse]
          exact h
        rw [dropWhile_eq_self_of_not_mem _ hnomem, List.reverse_reverse]
        simp
      · rw [List.reverse_append]
        have hrev : ([c] : PyStr).reverse ++ (d :: core').reverse
            = c :: (d :: core').reverse := by
          simp
        rw [hrev, List.dropWhile_cons_of_neg (by simp [hc])]
        have hback : (c :: (d :: core').reverse).reverse
            = (d :: core') ++ [c] := by
          simp
        rw [hback]
        simp [hc]

/-- Claim C7 counterexample: for the on-disk gene-list text `"A\r\n"` the
CLI produces the gene id `"A"`, not `"A\r"`: the carriage return does not
survive, because Python's text-mode reader translates it away before
`strip("\n")` runs. -/
theorem claim_C7_counterexample :
    cliGeneList ("A\r\n".data) = ["A".data]
    ∧ (["A".data] : List PyStr) ≠ ["A\r".data] := by
  constructor
  · rfl
  · decide

/-- Claim C7 (amended): the CLI passes to `set_gene_list` the lines of the
text-mode-decoded stream in file order, each with exactly its `'\n'`
characters removed; no line is dropped, leading or trailing spaces
survive, but carriage returns do not (the reader already translated them
to `'\n'`), so no resulting gene id contains `'\r'`. -/
theorem claim_C7_amended (st : Knockout) (raw : PyStr) :
    (cliApplyGeneList st raw).gene_list
      = some ((pyReadlines (universalNewlines raw)).map
          (List.filter (fun c => decide (c ≠ '\n'))))
    ∧ ∀ l ∈ cliGeneList raw, '\r' ∉ l := by
  constructor
  · simp only [cliApplyGeneList, Knockout.set_gene_list, cliGeneList]
    congr 1
    apply List.map_congr_left
    intro l hl
    exact pyStripNewline_eq_filter l (pyReadlines_dropLast _ l hl)
  · intro l hl
    simp only [cliGeneList] at hl
    rcases List.mem_map.mp hl with ⟨l0, hl0, rfl⟩
    intro hmem
    have h1 : '\r' ∈ l0 := by
      unfold pyStripNewline at hmem
      rw [List.mem_reverse] at hmem
      have h2 := (List.dropWhile_sublist
        (l := (l0.dropWhile (fun x => decide (x = '\n'))).reverse)
        (fun x => decide (x = '\n'))).subset hmem
      rw [List.mem_reverse] at h2
      exact (List.dropWhile_sublist (fun x => decide (x = '\n'))).subset h2
    exact universalNewlines_no_cr raw
      (mem_of_mem_pyReadlines _ l0 hl0 '\r' h1)

theorem claim_C7_amended_witness :
    (cliApplyGeneList exStAB "A \r\ngene2\n".data).gene_list
      = some ["A ".data, "gene2".data]
    ∧ '\r' ∉ ("A ".data : PyStr) := by
  have h := claim_C7_amended exStAB "A \r\ngene2\n".data
  refine ⟨?_, h.2 "A ".data (by decide)⟩
  rw [h.1]
  decide

/-! ### Claim C10: directory creation through the shell -/

/-- Claim C10: when `outdir` does not exist the constructor executes the
shell command string `"mkdir -p " ++ outdir`, unquoted; when it exists no
command runs at all; and for an `outdir` containing a space, none of the
directories the shell command creates equals `outdir` itself (field
splitting cuts it into several operands). -/
theorem claim_C10 (existsFn : PyStr → Bool)
    (model_file outdir method : PyStr) :
    (existsFn outdir = true →
      (Knockout.init existsFn model_file outdir method).shell_cmds = [])
    ∧ (existsFn outdir = false →
      (Knockout.init existsFn model_file outdir method).shell_cmds
        = ["mkdir -p ".data ++ outdir])
    ∧ (' ' ∈ outdir →
        ∀ d ∈ mkdirTargets ("mkdir -p ".data ++ outdir), d ≠ outdir) := by
  refine ⟨fun h => ?_, fun h => ?_, fun hsp d hd => ?_⟩
  · simp [Knockout.init, h]
  · simp [Knockout.init, h]
  · have hfields : d ∈ shellFields ("mkdir -p ".data ++ outdir) := by
      unfold mkdirTargets at hd
      by_cases hcond : (shellFields ("mkdir -p ".data ++ outdir)).take 2
          = ["mkdir".data, "-p".data]
      · rw [if_pos hcond] at hd
        exact List.drop_subset _ _ hd
      · rw [if_neg hcond] at hd
        simp at hd
    have hsplit : d ∈ pySplit ' ' ("mkdir -p ".data ++ outdir) :=
      List.mem_of_mem_filter hfields
    have hnospace : ' ' ∉ d := mem_pySplit_not_sep ' ' _ d hsplit
    intro hh
    exact hnospace (hh.symm ▸ hsp)

def exNoDir : PyStr → Bool := fun _ => false

theorem claim_C10_witness :
    (Knockout.init exNoDir "m.xml".data "res dir".data "fba".data).shell_cmds
      = ["mkdir -p res dir".data]
    ∧ mkdirTargets ("mkdir -p ".data ++ "res dir".data)
        = ["res".data, "dir".data]
    ∧ "res".data ≠ ("res dir".data : PyStr) := by
  have h := claim_C10 exNoDir "m.xml".data "res dir".data "fba".data
  refine ⟨?_, by decide, h.2.2 (by decide) "res".data (by decide)⟩
  rw [h.2.1 rfl]
  decide
